import Mathlib

/-!
Verification development for the C++ emission backend
(`src/quicktype-core/language/CPlusPlus.ts`).

The data model, the reference-classification pass (`generatedTypes`,
`updateIncludes`), the representation mapper (`cppType`,
`cppTypeInOptional`), the serialization emitter (class/union
decode and encode choices) and the synthesized constraint checker are
embedded as executable Lean definitions.  External collaborators of the
backend (`removeNullFromUnion`, `nullableFromUnion`, `unionNeedsName`,
and the JSON runtime probes of the emitted code) are not part of the
given source file; they are modelled from the specification and marked
as such in their doc comments.
-/

namespace CPlusPlus

/-- Type-graph nodes, the closed variant set of spec section 3:
`Any, Null, Bool, Integer, Double, String, Array, Map, Class, Enum, Union`.
Named types carry their one canonical emitted identifier. -/
inductive CTy where
  | any : CTy
  | null : CTy
  | bool : CTy
  | integer : CTy
  | double : CTy
  | string : CTy
  | array : CTy → CTy
  | map : CTy → CTy
  | cls : String → CTy
  | enum : String → CTy
  | union : String → List CTy → CTy

/-- The `kind` tag of a type node, as used by the TypeScript code
(`t.kind === "null"`, `t.kind === kind`, ...). -/
def CTy.kind : CTy → String
  | .any => "any"
  | .null => "null"
  | .bool => "bool"
  | .integer => "integer"
  | .double => "double"
  | .string => "string"
  | .array _ => "array"
  | .map _ => "map"
  | .cls _ => "class"
  | .enum _ => "enum"
  | .union _ _ => "union"

mutual

/-- Structural size of a type node, used as termination measure for the
recursions that descend into union members. -/
def CTy.sz : CTy → Nat
  | .array t => t.sz + 1
  | .map t => t.sz + 1
  | .union _ ms => CTy.szList ms + 1
  | _ => 1

/-- Summed size of a member list. -/
def CTy.szList : List CTy → Nat
  | [] => 0
  | t :: ts => t.sz + CTy.szList ts

end

theorem CTy.sz_pos (t : CTy) : 0 < t.sz := by
  cases t <;> simp [CTy.sz]

theorem CTy.sz_le_szList {t : CTy} {ms : List CTy} (h : t ∈ ms) :
    t.sz ≤ CTy.szList ms := by
  induction ms with
  | nil => cases h
  | cons x xs ih =>
    rcases List.mem_cons.mp h with h1 | h2
    · subst h1; simp [CTy.szList]
    · have := ih h2
      simp [CTy.szList]
      omega

theorem CTy.sz_lt_union {t : CTy} {nm : String} {ms : List CTy} (h : t ∈ ms) :
    t.sz < (CTy.union nm ms).sz := by
  have := CTy.sz_le_szList h
  simp [CTy.sz]
  omega

/-- A TypeScript value that is either `undefined`, `null`, or a proper
value, needed to state faithfully the `!== undefined` / `!== null`
guards of the source. -/
inductive JSVal (α : Type) where
  | undef : JSVal α
  | null : JSVal α
  | val : α → JSVal α

/-- Modelled from the spec: `removeNullFromUnion` of the TypeUtils
collaborator (not part of the given source file).  Splits a union's
member set into its null member (the JavaScript value `null` when the
union has no null member — the function never produces `undefined`) and
the remaining non-null members, in member order (the spec fixes no
other order).  The `sortBy` flag of the original is recorded but does
not affect the modelled member order. -/
def removeNullFromUnion (ms : List CTy) (_sortBy : Bool) : JSVal CTy × List CTy :=
  match ms.find? (fun m => m.kind == "null") with
  | some nt => (JSVal.val nt, ms.filter (fun m => m.kind != "null"))
  | none => (JSVal.null, ms)

theorem mem_of_mem_removeNullFromUnion {t : CTy} {ms : List CTy} {sb : Bool}
    (h : t ∈ (removeNullFromUnion ms sb).2) : t ∈ ms := by
  unfold removeNullFromUnion at h
  cases hf : ms.find? (fun m => m.kind == "null") with
  | some nt => rw [hf] at h; exact (List.mem_filter.mp h).1
  | none => rw [hf] at h; exact h

/-- Modelled from the spec: `nullableFromUnion` of the TypeUtils
collaborator (not part of the given source file).  A union with a null
member and exactly one non-null member collapses to that member
("optional of that member", spec section 3); every other union yields
the JavaScript `null`, modelled as `none`. -/
def nullableFromUnion (ms : List CTy) : Option CTy :=
  let rn := removeNullFromUnion ms false
  match rn.1 with
  | JSVal.val _ => if rn.2.length == 1 then rn.2.head? else none
  | _ => none

theorem mem_of_nullableFromUnion {ms : List CTy} {a : CTy}
    (h : nullableFromUnion ms = some a) : a ∈ ms := by
  unfold nullableFromUnion at h
  cases hn : (removeNullFromUnion ms false).1 with
  | undef => simp [hn] at h
  | null => simp [hn] at h
  | val x =>
    simp only [hn] at h
    by_cases hl : (removeNullFromUnion ms false).2.length == 1
    · simp [hl] at h
      exact mem_of_mem_removeNullFromUnion (List.mem_of_mem_head? h)
    · simp [hl] at h

/-- Modelled from the spec: `unionNeedsName` of the renderer base class
(not part of the given source file).  A union needs its own emitted
name exactly when it does not collapse to "optional of one member"
(spec sections 3 and 4.2). -/
def unionNeedsName (ms : List CTy) : Bool :=
  match nullableFromUnion ms with
  | some _ => false
  | none => true

/-- One occurrence record produced by `generatedTypes`
(`TypeRecord` of the source). -/
structure TypeRecord where
  name : String
  type : CTy
  level : Nat
  variant : Bool
  forceInclude : Bool

/-- The recursion inside `generatedTypes` (the local function `recur`).
`icm` is the enclosing `isClassMember` argument, which the source
closes over unchanged.  Source lines 691-751. -/
def genRec (icm : Bool) : Bool → Bool → Nat → CTy → List TypeRecord
  | fi, iv, l, CTy.array items => genRec icm fi iv (l + 1) items
  | fi, iv, l, CTy.cls nm =>
      [{ name := nm, type := CTy.cls nm, level := l, variant := iv, forceInclude := fi }]
  | fi, iv, l, CTy.map values => genRec icm fi iv (l + 1) values
  | fi, iv, l, CTy.enum nm =>
      [{ name := nm, type := CTy.enum nm, level := l, variant := iv, forceInclude := false }]
  | fi, iv, l, CTy.union nm ms =>
      let forced := unionNeedsName ms && icm
      let fi2 := fi || forced
      let head : List TypeRecord :=
        if forced then
          [{ name := nm, type := CTy.union nm ms, level := l, variant := true,
             forceInclude := fi2 }]
        else []
      let rn := removeNullFromUnion ms false
      let iv2 : Bool := match rn.1 with | JSVal.null => false | _ => true
      head ++ (rn.2.attach.map (fun x => genRec icm fi2 iv2 (l + 1) x.1)).flatten
  | _, _, _, _ => []
termination_by _ _ _ t => t.sz
decreasing_by
  all_goals first
    | exact CTy.sz_lt_union (mem_of_mem_removeNullFromUnion x.2)
    | (simp [CTy.sz] <;> omega)

/-- `generatedTypes(isClassMember, theType)`: all named-type occurrence
records reachable from a type (source lines 691-751). -/
def generatedTypes (icm : Bool) (theType : CTy) : List TypeRecord :=
  genRec icm false false 0 theType

/-- `IncludeKind` of the source: full include or lightweight forward
declaration. -/
inductive IncludeKind where
  | ForwardDeclare : IncludeKind
  | Include : IncludeKind
deriving DecidableEq

/-- `IncludeRecord` of the source; both fields start out `undefined`. -/
structure IncludeRecord where
  kind : Option IncludeKind
  typeKind : Option String
deriving DecidableEq

/-- The per-declaration `IncludeMap`, a JavaScript `Map<string,
IncludeRecord>` modelled as an association list in insertion order. -/
def IncludeMap := List (String × IncludeRecord)

/-- `Map.get` / `Map.has`. -/
def mapGet (m : IncludeMap) (k : String) : Option IncludeRecord :=
  match m with
  | [] => none
  | e :: rest => if e.1 == k then some e.2 else mapGet rest k

/-- `Map.set`: replace the existing binding in place, else append. -/
def mapSet (m : IncludeMap) (k : String) (v : IncludeRecord) : IncludeMap :=
  match m with
  | [] => [(k, v)]
  | e :: rest => if e.1 == k then (k, v) :: rest else e :: mapSet rest k v

/-- The empty include map (`new Map()`). -/
def emptyIncludeMap : IncludeMap := []

/-- The classification of one occurrence record: the `propRecord`
computed by the body of the loop in `updateIncludes`
(source lines 1539-1569). -/
def includeRecordFor (t : TypeRecord) : IncludeRecord :=
  match t.type with
  | CTy.cls _ =>
      let kind := if t.level == 0 then IncludeKind.Include else IncludeKind.ForwardDeclare
      let kind := if t.forceInclude then IncludeKind.Include else kind
      { kind := some kind, typeKind := some "class" }
  | CTy.enum _ =>
      { kind := some IncludeKind.ForwardDeclare, typeKind := some "enum" }
  | CTy.union _ ms =>
      match (removeNullFromUnion ms true).1 with
      | JSVal.undef =>
          if t.forceInclude then
            { kind := some IncludeKind.Include, typeKind := some "union" }
          else
            { kind := some IncludeKind.ForwardDeclare, typeKind := some "union" }
      | _ => { kind := some IncludeKind.Include, typeKind := some "union" }
  | _ => { kind := none, typeKind := none }

/-- One iteration of the loop in `updateIncludes`: classify the record,
then merge it into the map — an existing record is overwritten only
when its kind is `ForwardDeclare` (source lines 1571-1582). -/
def updateIncludesStep (m : IncludeMap) (t : TypeRecord) : IncludeMap :=
  let typeName := t.name
  let propRecord := includeRecordFor t
  match mapGet m typeName with
  | some incKind =>
      if incKind.kind = some IncludeKind.ForwardDeclare then
        mapSet m typeName propRecord
      else m
  | none => mapSet m typeName propRecord

/-- `updateIncludes(isClassMember, includes, propertyType, _defName)`
(source lines 1533-1584). -/
def updateIncludes (icm : Bool) (m : IncludeMap) (propertyType : CTy) : IncludeMap :=
  (generatedTypes icm propertyType).foldl updateIncludesStep m

/-- The include map a class declaration computes in `emitIncludes`:
`updateIncludes(true, includes, property.type)` folded over the
declared property types (source lines 1593-1599). -/
def classIncludeMap (props : List CTy) : IncludeMap :=
  props.foldl (fun m p => updateIncludes true m p) emptyIncludeMap

/-- All occurrence records a class declaration processes, in processing
order. -/
def declRecords (props : List CTy) : List TypeRecord :=
  props.flatMap (generatedTypes true)

theorem mapGet_mapSet_self (m : IncludeMap) (k : String) (v : IncludeRecord) :
    mapGet (mapSet m k v) k = some v := by
  induction m with
  | nil => simp [mapSet, mapGet]
  | cons e rest ih =>
    by_cases h : e.1 = k
    · simp [mapSet, mapGet, h]
    · simp [mapSet, mapGet, h, ih]

theorem mapGet_mapSet_other (m : IncludeMap) {k k2 : String} (v : IncludeRecord)
    (h : k ≠ k2) : mapGet (mapSet m k v) k2 = mapGet m k2 := by
  induction m with
  | nil => simp [mapSet, mapGet, h]
  | cons e rest ih =>
    by_cases he : e.1 = k
    · have he2 : ¬(e.1 = k2) := by rw [he]; exact h
      simp only [mapSet, he, if_pos, beq_iff_eq]
      simp [mapGet, h, he2]
    · simp only [mapSet, beq_iff_eq, he, if_neg, ite_false]
      by_cases he2 : e.1 = k2
      · simp [mapGet, he2]
      · simp [mapGet, he2, ih]

theorem mapGet_step_other {r : TypeRecord} {n : String} (m : IncludeMap)
    (h : r.name ≠ n) : mapGet (updateIncludesStep m r) n = mapGet m n := by
  unfold updateIncludesStep
  cases hg : mapGet m r.name with
  | some v =>
    simp only [hg]
    by_cases hk : v.kind = some IncludeKind.ForwardDeclare
    · simp [hk, mapGet_mapSet_other m _ h]
    · simp [hk]
  | none =>
    simp only [hg]
    simp [mapGet_mapSet_other m _ h]

/-- A record whose stored kind is not `ForwardDeclare` is never
overwritten by a later occurrence (the merge guard of
`updateIncludes`). -/
theorem foldl_step_preserves {n : String} {v : IncludeRecord}
    (rs : List TypeRecord) (m : IncludeMap)
    (hg : mapGet m n = some v) (hk : v.kind ≠ some IncludeKind.ForwardDeclare) :
    mapGet (rs.foldl updateIncludesStep m) n = some v := by
  induction rs generalizing m with
  | nil => simpa using hg
  | cons r rest ih =>
    simp only [List.foldl_cons]
    apply ih
    by_cases hn : r.name = n
    · unfold updateIncludesStep
      rw [hn]
      simp only [hg]
      simp [hk]
      exact hg
    · rw [mapGet_step_other m hn]
      exact hg

/-- Helper: after one step on a record named `n`, the stored kind at
`n` is `Include` if either the previous kind was `Include` or the new
record classifies as `Include`; in all cases the stored kind at `n` is
a defined (`some`) kind provided the previous one was defined or
absent. -/
theorem mapGet_step_self {r : TypeRecord} {n : String} (m : IncludeMap)
    (hn : r.name = n) :
    mapGet (updateIncludesStep m r) n =
      match mapGet m n with
      | some v =>
          if v.kind = some IncludeKind.ForwardDeclare then some (includeRecordFor r)
          else some v
      | none => some (includeRecordFor r) := by
  unfold updateIncludesStep
  rw [hn]
  cases hg : mapGet m n with
  | some v =>
    simp only [hg]
    by_cases hk : v.kind = some IncludeKind.ForwardDeclare
    · simp [hk, mapGet_mapSet_self]
    · simp [hk, hg]
  | none =>
    simp only [hg]
    simp [mapGet_mapSet_self]

/-- Once some occurrence of a name classifies as `Include`, the final
map records kind `Include` for that name — provided every occurrence of
the name carries a defined classification and the starting map holds no
undefined-kind record for it. -/
theorem foldl_step_include_wins {n : String} (rs : List TypeRecord) (m : IncludeMap)
    (hall : ∀ r ∈ rs, r.name = n → (includeRecordFor r).kind.isSome)
    (hm : ∀ v, mapGet m n = some v → v.kind.isSome)
    (hex : ∃ r ∈ rs, r.name = n ∧ (includeRecordFor r).kind = some IncludeKind.Include) :
    ∃ v, mapGet (rs.foldl updateIncludesStep m) n = some v ∧
      v.kind = some IncludeKind.Include := by
  induction rs generalizing m with
  | nil => rcases hex with ⟨r, hr, _⟩; cases hr
  | cons r rest ih =>
    simp only [List.foldl_cons]
    rcases hex with ⟨r2, hr2, hname2, hinc2⟩
    rcases List.mem_cons.mp hr2 with rfl | hr2tail
    · -- the Include-classified record is the head
      have hstep := @mapGet_step_self r2 n m hname2
      have hafter : ∃ v, mapGet (updateIncludesStep m r2) n = some v ∧
          v.kind = some IncludeKind.Include := by
        rw [hstep]
        cases hg : mapGet m n with
        | some v =>
          by_cases hk : v.kind = some IncludeKind.ForwardDeclare
          · exact ⟨includeRecordFor r2, by simp [hk], hinc2⟩
          · refine ⟨v, by simp [hk], ?_⟩
            have := hm v hg
            cases hv : v.kind with
            | none => rw [hv] at this; simp at this
            | some kk => cases kk with
              | ForwardDeclare => exact absurd hv hk
              | Include => rfl
        | none => exact ⟨includeRecordFor r2, by simp, hinc2⟩
      rcases hafter with ⟨v, hv, hvk⟩
      refine ⟨v, foldl_step_preserves rest _ hv ?_, hvk⟩
      rw [hvk]; simp
    · -- the Include-classified record is in the tail
      apply ih _ (fun r3 h3 => hall r3 (List.mem_cons_of_mem _ h3))
      · intro v hv
        by_cases hn : r.name = n
        · rw [mapGet_step_self m hn] at hv
          cases hg : mapGet m n with
          | some v0 =>
            rw [hg] at hv
            by_cases hk : v0.kind = some IncludeKind.ForwardDeclare
            · simp [hk] at hv
              rw [← hv]
              exact hall r (List.mem_cons_self _ _) hn
            · simp [hk] at hv
              rw [← hv]
              exact hm v0 hg
          | none =>
            rw [hg] at hv
            simp at hv
            rw [← hv]
            exact hall r (List.mem_cons_self _ _) hn
        · rw [mapGet_step_other m hn] at hv
          exact hm v hv
      · exact ⟨r2, hr2tail, hname2, hinc2⟩

/-- If every occurrence of a name classifies as `ForwardDeclare`, and
the map holds a `ForwardDeclare` record for it, it still does after
processing. -/
theorem foldl_step_fwd_stays {n : String} (rs : List TypeRecord) (m : IncludeMap)
    (hall : ∀ r ∈ rs, r.name = n →
      (includeRecordFor r).kind = some IncludeKind.ForwardDeclare)
    (hm : ∃ v, mapGet m n = some v ∧ v.kind = some IncludeKind.ForwardDeclare) :
    ∃ v, mapGet (rs.foldl updateIncludesStep m) n = some v ∧
      v.kind = some IncludeKind.ForwardDeclare := by
  induction rs generalizing m with
  | nil => simpa using hm
  | cons r rest ih =>
    simp only [List.foldl_cons]
    apply ih _ (fun r3 h3 => hall r3 (List.mem_cons_of_mem _ h3))
    rcases hm with ⟨v, hv, hvk⟩
    by_cases hn : r.name = n
    · rw [mapGet_step_self m hn, hv]
      simp [hvk]
      exact hall r (List.mem_cons_self _ _) hn
    · exact ⟨v, by rw [mapGet_step_other m hn]; exact hv, hvk⟩

/-- If every occurrence of a name classifies as `ForwardDeclare`, some
occurrence exists and the name is unbound at the start, the final map
records kind `ForwardDeclare`. -/
theorem foldl_step_all_fwd {n : String} (rs : List TypeRecord) (m : IncludeMap)
    (hall : ∀ r ∈ rs, r.name = n →
      (includeRecordFor r).kind = some IncludeKind.ForwardDeclare)
    (hm : mapGet m n = none)
    (hex : ∃ r ∈ rs, r.name = n) :
    ∃ v, mapGet (rs.foldl updateIncludesStep m) n = some v ∧
      v.kind = some IncludeKind.ForwardDeclare := by
  induction rs generalizing m with
  | nil => rcases hex with ⟨r, hr, _⟩; cases hr
  | cons r rest ih =>
    simp only [List.foldl_cons]
    by_cases hn : r.name = n
    · apply foldl_step_fwd_stays rest _
        (fun r3 h3 => hall r3 (List.mem_cons_of_mem _ h3))
      refine ⟨includeRecordFor r, ?_, hall r (List.mem_cons_self _ _) hn⟩
      rw [mapGet_step_self m hn, hm]
    · rcases hex with ⟨r2, hr2, hname2⟩
      rcases List.mem_cons.mp hr2 with rfl | hr2tail
      · exact absurd hname2 hn
      · apply ih _ (fun r3 h3 => hall r3 (List.mem_cons_of_mem _ h3))
        · rw [mapGet_step_other m hn]; exact hm
        · exact ⟨r2, hr2tail, hname2⟩

theorem includeRecordFor_isSome_of_cls {r : TypeRecord} {nm : String}
    (h : r.type = CTy.cls nm) : (includeRecordFor r).kind.isSome := by
  unfold includeRecordFor
  rw [h]
  simp

theorem includeRecordFor_isSome_of_enum {r : TypeRecord} {nm : String}
    (h : r.type = CTy.enum nm) : (includeRecordFor r).kind.isSome := by
  unfold includeRecordFor
  rw [h]
  simp

theorem includeRecordFor_isSome_of_union {r : TypeRecord} {nm : String} {ms : List CTy}
    (h : r.type = CTy.union nm ms) : (includeRecordFor r).kind.isSome := by
  obtain ⟨n2, t2, l2, v2, f2⟩ := r
  simp only at h
  subst h
  unfold includeRecordFor
  dsimp only
  split
  · split <;> simp
  · simp

/-- Every occurrence record `generatedTypes` produces is for a class,
an enum or a union, so its classification is always a defined kind. -/
theorem genRec_kind_isSome (icm : Bool) (fi iv : Bool) (l : Nat) (t : CTy) :
    ∀ r ∈ genRec icm fi iv l t, (includeRecordFor r).kind.isSome := by
  induction fi, iv, l, t using genRec.induct icm with
  | case1 fi iv l items ih =>
      intro r hr
      rw [genRec] at hr
      exact ih r hr
  | case2 fi iv l nm =>
      intro r hr
      rw [genRec] at hr
      simp at hr
      subst hr
      exact includeRecordFor_isSome_of_cls rfl
  | case3 fi iv l values ih =>
      intro r hr
      rw [genRec] at hr
      exact ih r hr
  | case4 fi iv l nm =>
      intro r hr
      rw [genRec] at hr
      simp at hr
      subst hr
      exact includeRecordFor_isSome_of_enum rfl
  | case5 fi iv l nm ms forced fi2 rn iv2 ih =>
      intro r hr
      rw [genRec] at hr
      rcases List.mem_append.mp hr with hh | ht
      · by_cases hf : (unionNeedsName ms && icm) = true
        · simp only [hf, if_pos, ite_true] at hh
          simp at hh
          subst hh
          exact includeRecordFor_isSome_of_union rfl
        · simp only [hf] at hh
          simp at hh
      · rcases List.mem_flatten.mp ht with ⟨l2, hl2, hr2⟩
        rcases List.mem_map.mp hl2 with ⟨x, hx, rfl⟩
        exact ih x r hr2
  | case6 fi iv l t h1 h2 h3 h4 h5 =>
      intro r hr
      rw [genRec] at hr
      · cases hr
      · exact h1
      · exact h2
      · exact h3
      · exact h4
      · exact h5

theorem generatedTypes_kind_isSome (icm : Bool) (t : CTy) :
    ∀ r ∈ generatedTypes icm t, (includeRecordFor r).kind.isSome :=
  genRec_kind_isSome icm false false 0 t

theorem declRecords_kind_isSome (props : List CTy) :
    ∀ r ∈ declRecords props, (includeRecordFor r).kind.isSome := by
  intro r hr
  rcases List.mem_flatMap.mp hr with ⟨p, _, hr2⟩
  exact generatedTypes_kind_isSome true p r hr2

/-- Folding `updateIncludes` over the property types equals folding the
merge step over the concatenated occurrence records. -/
theorem classIncludeMap_eq_foldl (props : List CTy) :
    classIncludeMap props = (declRecords props).foldl updateIncludesStep emptyIncludeMap := by
  unfold classIncludeMap declRecords
  generalize emptyIncludeMap = m
  induction props generalizing m with
  | nil => simp
  | cons p ps ih =>
      simp only [List.foldl_cons, List.flatMap_cons, List.foldl_append]
      exact ih _

theorem removeNullFromUnion_fst_ne_undef (ms : List CTy) (sb : Bool) :
    (removeNullFromUnion ms sb).1 ≠ JSVal.undef := by
  unfold removeNullFromUnion
  cases ms.find? (fun m => m.kind == "null") <;> simp

theorem includeRecordFor_cls_level0 {r : TypeRecord} {nm : String}
    (h : r.type = CTy.cls nm) (hl : r.level = 0) :
    (includeRecordFor r).kind = some IncludeKind.Include := by
  obtain ⟨n2, t2, l2, v2, f2⟩ := r
  simp only at h hl
  subst h
  subst hl
  unfold includeRecordFor
  dsimp only
  split <;> simp

theorem includeRecordFor_cls_force {r : TypeRecord} {nm : String}
    (h : r.type = CTy.cls nm) (hf : r.forceInclude = true) :
    (includeRecordFor r).kind = some IncludeKind.Include := by
  obtain ⟨n2, t2, l2, v2, f2⟩ := r
  simp only at h hf
  subst h
  subst hf
  unfold includeRecordFor
  simp

theorem includeRecordFor_cls_fwd {r : TypeRecord} {nm : String}
    (h : r.type = CTy.cls nm) (hl : 0 < r.level) (hf : r.forceInclude = false) :
    (includeRecordFor r).kind = some IncludeKind.ForwardDeclare := by
  obtain ⟨n2, t2, l2, v2, f2⟩ := r
  simp only at h hl hf
  subst h
  subst hf
  unfold includeRecordFor
  dsimp only
  have : ¬(l2 == 0) = true := by simp; omega
  simp [this]

theorem includeRecordFor_union {r : TypeRecord} {nm : String} {ms : List CTy}
    (h : r.type = CTy.union nm ms) :
    (includeRecordFor r).kind = some IncludeKind.Include := by
  obtain ⟨n2, t2, l2, v2, f2⟩ := r
  simp only at h
  subst h
  unfold includeRecordFor
  dsimp only
  cases hrn : (removeNullFromUnion ms true).1 with
  | undef => exact absurd hrn (removeNullFromUnion_fst_ne_undef ms true)
  | null => rfl
  | val a => rfl

theorem mapGet_empty (n : String) : mapGet emptyIncludeMap n = none := rfl

/-- The head record `generatedTypes` pushes for a named union used as a
class member: the union itself, at the given level, variant, forced. -/
theorem genRec_union_head_mem (nm : String) (ms : List CTy) (fi iv : Bool) (l : Nat)
    (hneed : unionNeedsName ms = true) :
    ({ name := nm, type := CTy.union nm ms, level := l, variant := true,
       forceInclude := true } : TypeRecord) ∈ genRec true fi iv l (CTy.union nm ms) := by
  rw [genRec]
  apply List.mem_append_left
  simp [hneed]

/-- Recursing into a class alternative of a named union used as a class
member produces a level `l+1` record with `forceInclude` set. -/
theorem genRec_union_cls_mem (nm : String) (ms : List CTy) (cn : String)
    (fi iv : Bool) (l : Nat)
    (hneed : unionNeedsName ms = true)
    (hcls : CTy.cls cn ∈ (removeNullFromUnion ms false).2) :
    ∃ r ∈ genRec true fi iv l (CTy.union nm ms),
      r.name = cn ∧ r.type = CTy.cls cn ∧ r.level = l + 1 ∧ r.forceInclude = true := by
  rw [genRec]
  refine ⟨{ name := cn, type := CTy.cls cn, level := l + 1,
            variant := match (removeNullFromUnion ms false).1 with
                       | JSVal.null => false
                       | _ => true,
            forceInclude := fi || (unionNeedsName ms && true) }, ?_, ?_, rfl, rfl, ?_⟩
  · apply List.mem_append_right
    apply List.mem_flatten.mpr
    refine ⟨genRec true (fi || (unionNeedsName ms && true))
      (match (removeNullFromUnion ms false).1 with
       | JSVal.null => false
       | _ => true) (l + 1) (CTy.cls cn), ?_, ?_⟩
    · exact List.mem_map.mpr ⟨⟨CTy.cls cn, hcls⟩, List.mem_attach _ _, rfl⟩
    · rw [genRec]
      simp
  · rfl
  · simp [hneed]

/-- Claim C1: in a declaration's include map, a class occurring at
nesting level 0 is classified `Include`, and a class occurring only at
nesting level > 0 with `forceInclude` unset is classified
`ForwardDeclare`. -/
theorem claim_C1 (props : List CTy) (n : String) :
    ((∃ r ∈ declRecords props,
        r.name = n ∧ (∃ nm, r.type = CTy.cls nm) ∧ r.level = 0) →
      ∃ v, mapGet (classIncludeMap props) n = some v ∧
        v.kind = some IncludeKind.Include)
    ∧
    ((∃ r ∈ declRecords props, r.name = n) →
     (∀ r ∈ declRecords props, r.name = n →
        (∃ nm, r.type = CTy.cls nm) ∧ 0 < r.level ∧ r.forceInclude = false) →
      ∃ v, mapGet (classIncludeMap props) n = some v ∧
        v.kind = some IncludeKind.ForwardDeclare) := by
  constructor
  · rintro ⟨r, hr, hname, ⟨nm, hty⟩, hlvl⟩
    rw [classIncludeMap_eq_foldl]
    apply foldl_step_include_wins
    · intro r2 hr2 _
      exact declRecords_kind_isSome props r2 hr2
    · intro v hv
      rw [mapGet_empty] at hv
      cases hv
    · exact ⟨r, hr, hname, includeRecordFor_cls_level0 hty hlvl⟩
  · rintro ⟨r, hr, hname⟩ hall
    rw [classIncludeMap_eq_foldl]
    apply foldl_step_all_fwd
    · intro r2 hr2 hn2
      obtain ⟨⟨nm2, hty2⟩, hl2, hf2⟩ := hall r2 hr2 hn2
      exact includeRecordFor_cls_fwd hty2 hl2 hf2
    · exact mapGet_empty n
    · exact ⟨r, hr, hname⟩

/-- Claim C2: classification within one declaration's include map is
monotonic — once a name's record has kind `Include`, processing further
occurrences through `updateIncludes` never replaces it (only a
`ForwardDeclare` record can be overwritten). -/
theorem claim_C2 (icm : Bool) (m : IncludeMap) (t : CTy) (n : String)
    (v : IncludeRecord) (hget : mapGet m n = some v)
    (hkind : v.kind = some IncludeKind.Include) :
    mapGet (updateIncludes icm m t) n = some v := by
  unfold updateIncludes
  exact foldl_step_preserves _ _ hget (by rw [hkind]; simp)

/-- Claim C3: a named union appearing as a direct class member is
recorded by `generatedTypes` with `forceInclude` set, its non-null
class alternatives are recorded at level 1 with `forceInclude`
propagated, and in the declaration's include map both the union and
each such class alternative are classified `Include`. -/
theorem claim_C3 (props : List CTy) (nm : String) (ms : List CTy) (cn : String)
    (hmem : CTy.union nm ms ∈ props)
    (hneed : unionNeedsName ms = true)
    (hcls : CTy.cls cn ∈ (removeNullFromUnion ms false).2) :
    (∃ r ∈ generatedTypes true (CTy.union nm ms),
        r.name = nm ∧ r.type = CTy.union nm ms ∧ r.level = 0 ∧ r.forceInclude = true)
    ∧ (∃ r ∈ generatedTypes true (CTy.union nm ms),
        r.name = cn ∧ r.type = CTy.cls cn ∧ r.level = 1 ∧ r.forceInclude = true)
    ∧ (∃ v, mapGet (classIncludeMap props) nm = some v ∧
        v.kind = some IncludeKind.Include)
    ∧ (∃ v, mapGet (classIncludeMap props) cn = some v ∧
        v.kind = some IncludeKind.Include) := by
  have hhead := genRec_union_head_mem nm ms false false 0 hneed
  obtain ⟨rc, hrc, hrcn, hrct, hrcl, hrcf⟩ :=
    genRec_union_cls_mem nm ms cn false false 0 hneed hcls
  refine ⟨⟨_, hhead, rfl, rfl, rfl, rfl⟩, ⟨rc, hrc, hrcn, hrct, hrcl, hrcf⟩, ?_, ?_⟩
  · rw [classIncludeMap_eq_foldl]
    apply foldl_step_include_wins
    · intro r2 hr2 _
      exact declRecords_kind_isSome props r2 hr2
    · intro v hv
      rw [mapGet_empty] at hv
      cases hv
    · refine ⟨_, List.mem_flatMap.mpr ⟨CTy.union nm ms, hmem, hhead⟩, rfl, ?_⟩
      exact includeRecordFor_union rfl
  · rw [classIncludeMap_eq_foldl]
    apply foldl_step_include_wins
    · intro r2 hr2 _
      exact declRecords_kind_isSome props r2 hr2
    · intro v hv
      rw [mapGet_empty] at hv
      cases hv
    · refine ⟨rc, List.mem_flatMap.mpr ⟨CTy.union nm ms, hmem, hrc⟩, hrcn, ?_⟩
      exact includeRecordFor_cls_force hrct hrcf

/-- Claim C10: every union-typed record is classified `Include` by
`updateIncludes`, because the first component of `removeNullFromUnion`
is the JavaScript `null` (never `undefined`) when the union has no null
member, so the `!== undefined` guard always holds and the union
`ForwardDeclare` branch is unreachable. -/
theorem claim_C10 :
    (∀ (tr : TypeRecord) (nm : String) (ms : List CTy),
      tr.type = CTy.union nm ms →
      (includeRecordFor tr).kind = some IncludeKind.Include)
    ∧ (∀ (ms : List CTy) (sb : Bool), (removeNullFromUnion ms sb).1 ≠ JSVal.undef)
    ∧ (∀ (ms : List CTy) (sb : Bool),
        ms.find? (fun m => m.kind == "null") = none →
        (removeNullFromUnion ms sb).1 = JSVal.null) := by
  refine ⟨fun tr nm ms h => includeRecordFor_union h,
          removeNullFromUnion_fst_ne_undef, ?_⟩
  intro ms sb hf
  unfold removeNullFromUnion
  rw [hf]

theorem claim_C1_witness :
    (∃ v, mapGet (classIncludeMap [CTy.cls "A", CTy.array (CTy.cls "B")]) "A" = some v ∧
       v.kind = some IncludeKind.Include)
    ∧ (∃ v, mapGet (classIncludeMap [CTy.cls "A", CTy.array (CTy.cls "B")]) "B" = some v ∧
       v.kind = some IncludeKind.ForwardDeclare) := by
  have hd : declRecords [CTy.cls "A", CTy.array (CTy.cls "B")] =
      [{ name := "A", type := CTy.cls "A", level := 0, variant := false,
         forceInclude := false },
       { name := "B", type := CTy.cls "B", level := 1, variant := false,
         forceInclude := false }] := by
    simp [declRecords, generatedTypes, genRec]
  constructor
  · refine (claim_C1 _ "A").1
      ⟨{ name := "A", type := CTy.cls "A", level := 0, variant := false,
         forceInclude := false }, ?_, rfl, ⟨"A", rfl⟩, rfl⟩
    rw [hd]
    exact List.mem_cons_self _ _
  · refine (claim_C1 _ "B").2
      ⟨{ name := "B", type := CTy.cls "B", level := 1, variant := false,
         forceInclude := false }, ?_, rfl⟩ ?_
    · rw [hd]
      exact List.mem_cons_of_mem _ (List.mem_cons_self _ _)
    · rw [hd]
      intro r hr hn
      rcases List.mem_cons.mp hr with rfl | hr2
      · simp at hn
      · rcases List.mem_cons.mp hr2 with rfl | hr3
        · exact ⟨⟨"B", rfl⟩, Nat.zero_lt_one, rfl⟩
        · cases hr3

theorem claim_C2_witness :
    mapGet (updateIncludes false
      (mapSet emptyIncludeMap "A"
        { kind := some IncludeKind.Include, typeKind := some "class" })
      (CTy.cls "A")) "A" =
    some { kind := some IncludeKind.Include, typeKind := some "class" } :=
  claim_C2 false _ (CTy.cls "A") "A" _ (by simp [mapSet, mapGet, emptyIncludeMap]) rfl

theorem claim_C3_witness :
    (∃ r ∈ generatedTypes true (CTy.union "U" [CTy.cls "B", CTy.integer]),
        r.name = "U" ∧ r.type = CTy.union "U" [CTy.cls "B", CTy.integer] ∧
        r.level = 0 ∧ r.forceInclude = true)
    ∧ (∃ r ∈ generatedTypes true (CTy.union "U" [CTy.cls "B", CTy.integer]),
        r.name = "B" ∧ r.type = CTy.cls "B" ∧ r.level = 1 ∧ r.forceInclude = true)
    ∧ (∃ v, mapGet (classIncludeMap [CTy.union "U" [CTy.cls "B", CTy.integer]]) "U" =
        some v ∧ v.kind = some IncludeKind.Include)
    ∧ (∃ v, mapGet (classIncludeMap [CTy.union "U" [CTy.cls "B", CTy.integer]]) "B" =
        some v ∧ v.kind = some IncludeKind.Include) :=
  claim_C3 [CTy.union "U" [CTy.cls "B", CTy.integer]] "U" [CTy.cls "B", CTy.integer] "B"
    (List.mem_cons_self _ _) rfl (List.mem_cons_self _ _)

theorem claim_C10_witness :
    (includeRecordFor
      { name := "U", type := CTy.union "U" [], level := 3, variant := false,
        forceInclude := false }).kind = some IncludeKind.Include
    ∧ (removeNullFromUnion [CTy.integer] true).1 ≠ JSVal.undef
    ∧ (removeNullFromUnion [CTy.integer] true).1 = JSVal.null :=
  ⟨claim_C10.1 _ "U" [] rfl, claim_C10.2.1 [CTy.integer] true,
   claim_C10.2.2 [CTy.integer] true rfl⟩

/-! ## Representation mapper: `cppType` and `cppTypeInOptional` -/

/-- Rendered source text, the `Sourcelike` tree of the source: plain
strings, marker-annotated source (from `maybeAnnotated`), and sequences. -/
inductive Sourcelike where
  | s : String → Sourcelike
  | ann : String → Sourcelike → Sourcelike
  | seq : List Sourcelike → Sourcelike

/-- `TypeContext` of the source. -/
structure TypeContext where
  needsForwardIndirection : Bool
  needsOptionalIndirection : Bool
  inJsonNamespace : Bool

/-- The renderer state `cppType` consults: the configured namespace
segments and which class names the declaration IR has forward-declared
at the point of use. -/
structure Renderer where
  namespaceNames : List String
  forwardDeclared : List String

/-- `optionalType`: the ownership indirection used for optionals
(source line 250). -/
def optionalType : String := "std::shared_ptr"

/-- `maybeAnnotated`: attach a fidelity-loss marker when issues are
requested. -/
def maybeAnnotated (withIssues : Bool) (marker : String) (sl : Sourcelike) : Sourcelike :=
  if withIssues then Sourcelike.ann marker sl else sl

/-- The fidelity-loss marker for `Any` types. -/
def anyTypeIssueMarker : String := "anyTypeIssue"

/-- The fidelity-loss marker for `Null` types. -/
def nullTypeIssueMarker : String := "nullTypeIssue"

/-- `ourQualifier(inJsonNamespace)` (source lines 621-623). -/
def ourQualifier (R : Renderer) (inJsonNamespace : Bool) : Sourcelike :=
  if inJsonNamespace then
    Sourcelike.seq [Sourcelike.s (String.intercalate "::" R.namespaceNames), Sourcelike.s "::"]
  else Sourcelike.seq []

/-- `jsonQualifier(inJsonNamespace)` (source lines 625-627). -/
def jsonQualifier (inJsonNamespace : Bool) : Sourcelike :=
  if inJsonNamespace then Sourcelike.seq [] else Sourcelike.s "nlohmann::"

/-- `isForwardDeclaredType` consulted by the class arm of `cppType`. -/
def isForwardDeclaredType (R : Renderer) (nm : String) : Bool :=
  R.forwardDeclared.contains nm

/-- `variantIndirection(needIndirection, typeSrc)` (source lines
629-632). -/
def variantIndirection (needIndirection : Bool) (typeSrc : Sourcelike) : Sourcelike :=
  if needIndirection then
    Sourcelike.seq [Sourcelike.s optionalType, Sourcelike.s "<", typeSrc, Sourcelike.s ">"]
  else typeSrc

/-- `cppType(t, ctx, withIssues)` (source lines 634-685): maps a type
node to its rendered C++ type expression. -/
def cppType (R : Renderer) : CTy → TypeContext → Bool → Sourcelike
  | CTy.any, ctx, withIssues =>
      maybeAnnotated withIssues anyTypeIssueMarker
        (Sourcelike.seq [jsonQualifier ctx.inJsonNamespace, Sourcelike.s "json"])
  | CTy.null, ctx, withIssues =>
      maybeAnnotated withIssues nullTypeIssueMarker
        (Sourcelike.seq [jsonQualifier ctx.inJsonNamespace, Sourcelike.s "json"])
  | CTy.bool, _, _ => Sourcelike.s "bool"
  | CTy.integer, _, _ => Sourcelike.s "int64_t"
  | CTy.double, _, _ => Sourcelike.s "double"
  | CTy.string, _, _ => Sourcelike.s "std::string"
  | CTy.array items, ctx, withIssues =>
      Sourcelike.seq [Sourcelike.s "std::vector<",
        cppType R items
          { needsForwardIndirection := false, needsOptionalIndirection := true,
            inJsonNamespace := ctx.inJsonNamespace } withIssues,
        Sourcelike.s ">"]
  | CTy.cls nm, ctx, _ =>
      variantIndirection (ctx.needsForwardIndirection && isForwardDeclaredType R nm)
        (Sourcelike.seq [ourQualifier R ctx.inJsonNamespace, Sourcelike.s nm])
  | CTy.map values, ctx, withIssues =>
      Sourcelike.seq [Sourcelike.s "std::map<std::string, ",
        cppType R values
          { needsForwardIndirection := false, needsOptionalIndirection := true,
            inJsonNamespace := ctx.inJsonNamespace } withIssues,
        Sourcelike.s ">"]
  | CTy.enum nm, ctx, _ =>
      Sourcelike.seq [ourQualifier R ctx.inJsonNamespace, Sourcelike.s nm]
  | CTy.union nm ms, ctx, withIssues =>
      match h : nullableFromUnion ms with
      | none => Sourcelike.seq [ourQualifier R ctx.inJsonNamespace, Sourcelike.s nm]
      | some nullable =>
          Sourcelike.seq [Sourcelike.s optionalType, Sourcelike.s "<",
            cppType R nullable
              { needsForwardIndirection := false, needsOptionalIndirection := false,
                inJsonNamespace := ctx.inJsonNamespace } withIssues,
            Sourcelike.s ">"]
termination_by t _ _ => t.sz
decreasing_by
  all_goals first
    | exact CTy.sz_lt_union (mem_of_nullableFromUnion h)
    | (simp [CTy.sz] <;> omega)

/-- Comma-intercalated member type list built by the loop of
`cppTypeInOptional`. -/
def cppTypeList (R : Renderer) (nonNulls : List CTy) (inJson : Bool)
    (withIssues : Bool) : List Sourcelike :=
  match nonNulls with
  | [] => []
  | [t] =>
      [cppType R t
        { needsForwardIndirection := true, needsOptionalIndirection := false,
          inJsonNamespace := inJson } withIssues]
  | t :: rest =>
      cppType R t
        { needsForwardIndirection := true, needsOptionalIndirection := false,
          inJsonNamespace := inJson } withIssues
        :: Sourcelike.s ", " :: cppTypeList R rest inJson withIssues

/-- `cppTypeInOptional(nonNulls, ctx, withIssues)` (source lines
582-604): a single non-null member renders as that member's type in
the same context; otherwise a `boost::variant` over the members. -/
def cppTypeInOptional (R : Renderer) (nonNulls : List CTy) (ctx : TypeContext)
    (withIssues : Bool) : Sourcelike :=
  match nonNulls with
  | [t] => cppType R t ctx withIssues
  | _ =>
      Sourcelike.seq [Sourcelike.s "boost::variant<",
        Sourcelike.seq (cppTypeList R nonNulls ctx.inJsonNamespace withIssues),
        Sourcelike.s ">"]

theorem nullableFromUnion_eq_of_singleton {ms : List CTy} {a : CTy}
    (h1 : (ms.find? (fun m => m.kind == "null")).isSome = true)
    (h2 : (removeNullFromUnion ms true).2 = [a]) :
    nullableFromUnion ms = some a := by
  obtain ⟨nt, hnt⟩ := Option.isSome_iff_exists.mp h1
  unfold removeNullFromUnion at h2
  rw [hnt] at h2
  unfold nullableFromUnion removeNullFromUnion
  rw [hnt]
  simp only at h2 ⊢
  rw [h2]
  rfl

/-- Claim C4: a union with a null member and exactly one non-null
alternative renders identically to "optional of that alternative": the
union arm of `cppType` wraps the alternative's rendered type in the
optional indirection, and the singleton arm of `cppTypeInOptional`
returns the member's rendered type directly. -/
theorem claim_C4 (R : Renderer) (nm : String) (ms : List CTy) (a : CTy)
    (ctx : TypeContext) (withIssues : Bool)
    (h1 : (ms.find? (fun m => m.kind == "null")).isSome = true)
    (h2 : (removeNullFromUnion ms true).2 = [a]) :
    cppType R (CTy.union nm ms) ctx withIssues =
      Sourcelike.seq [Sourcelike.s optionalType, Sourcelike.s "<",
        cppType R a
          { needsForwardIndirection := false, needsOptionalIndirection := false,
            inJsonNamespace := ctx.inJsonNamespace } withIssues,
        Sourcelike.s ">"]
    ∧ cppTypeInOptional R (removeNullFromUnion ms true).2 ctx withIssues =
        cppType R a ctx withIssues := by
  have hN := nullableFromUnion_eq_of_singleton h1 h2
  constructor
  · rw [cppType]
    split
    · rename_i heq
      rw [hN] at heq
      cases heq
    · rename_i x heq
      rw [hN] at heq
      cases heq
      rfl
  · rw [h2]
    rfl

theorem claim_C4_witness :
    cppType { namespaceNames := ["quicktype"], forwardDeclared := [] }
      (CTy.union "U" [CTy.null, CTy.string])
      { needsForwardIndirection := true, needsOptionalIndirection := true,
        inJsonNamespace := false } true =
      Sourcelike.seq [Sourcelike.s optionalType, Sourcelike.s "<",
        cppType { namespaceNames := ["quicktype"], forwardDeclared := [] } CTy.string
          { needsForwardIndirection := false, needsOptionalIndirection := false,
            inJsonNamespace := false } true,
        Sourcelike.s ">"]
    ∧ cppTypeInOptional { namespaceNames := ["quicktype"], forwardDeclared := [] }
        (removeNullFromUnion [CTy.null, CTy.string] true).2
        { needsForwardIndirection := true, needsOptionalIndirection := true,
          inJsonNamespace := false } true =
      cppType { namespaceNames := ["quicktype"], forwardDeclared := [] } CTy.string
        { needsForwardIndirection := true, needsOptionalIndirection := true,
          inJsonNamespace := false } true :=
  claim_C4 _ "U" [CTy.null, CTy.string] CTy.string _ true rfl rfl

/-! ## Serialization emitter: decode/encode choices of the emitted code -/

/-- Modelled from the spec: a runtime JSON value of the generic
dynamic-value library the emitted code runs against.  Double payloads
are not modelled beyond their kind. -/
inductive JVal where
  | null : JVal
  | boolean : Bool → JVal
  | numInteger : Int → JVal
  | numDouble : JVal
  | str : String → JVal
  | obj : List (String × JVal) → JVal
  | arr : List JVal → JVal

/-- Modelled from the spec: the runtime kind probes (`is_boolean`,
`is_number_integer`, `is_number`, `is_string`, `is_object`,
`is_array`) used by the emitted union decode.  `is_number` holds for
integers and doubles; `is_object` is the single keyed-structure test
shared by the class-shaped and the map-shaped probe (spec section 9). -/
def jsonIs (func : String) (j : JVal) : Bool :=
  if func == "is_boolean" then (match j with | JVal.boolean _ => true | _ => false)
  else if func == "is_number_integer" then
    (match j with | JVal.numInteger _ => true | _ => false)
  else if func == "is_number" then
    (match j with | JVal.numInteger _ => true | JVal.numDouble => true | _ => false)
  else if func == "is_string" then (match j with | JVal.str _ => true | _ => false)
  else if func == "is_object" then (match j with | JVal.obj _ => true | _ => false)
  else if func == "is_array" then (match j with | JVal.arr _ => true | _ => false)
  else false

/-- `j.find(property) != j.end()` / `j.at(property)` on the emitted
side: key lookup in a JSON object. -/
def jsonFind (j : JVal) (p : String) : Option JVal :=
  match j with
  | JVal.obj fields => fields.lookup p
  | _ => none

/-- The emitted helper `get_untyped` (source lines 1402-1407): return
the property's value, or the empty JSON value (`json()`, i.e. null)
when the key is missing. -/
def getUntyped (j : JVal) (p : String) : JVal :=
  match jsonFind j p with
  | some v => v
  | none => JVal.null

/-- The `shared_ptr` `adl_serializer::from_json` of the emitted code
(source lines 1193-1197): a null JSON value decodes to the empty
pointer, anything else decodes through `dec`. -/
def sharedPtrFromJson {α : Type} (dec : JVal → Option α) : JVal → Option α
  | JVal.null => none
  | v => dec v

/-- The emitted helper `get_optional` (source lines 1412-1422): absent
key yields the empty pointer, a present key decodes through the
`shared_ptr` serializer. -/
def getOptional {α : Type} (dec : JVal → Option α) (j : JVal) (p : String) : Option α :=
  match jsonFind j p with
  | some v => sharedPtrFromJson dec v
  | none => none

/-- `_j.at(property)` of the strict branch: missing key raises. -/
def jsonAtGet {α : Type} (dec : JVal → Except String α) (j : JVal) (p : String) :
    Except String α :=
  match jsonFind j p with
  | some v => dec v
  | none => Except.error "key not found"

/-- The three read strategies a class `from_json` can emit per
property. -/
inductive ReadMethod where
  | getOptional : ReadMethod
  | getUntyped : ReadMethod
  | atStrict : ReadMethod
deriving DecidableEq

/-- Whether the property type is a union whose `removeNullFromUnion`
null component is not the JavaScript `null` (the first guard of the
property loop in `emitClassFunctions`, source lines 933-935). -/
def isOptionalUnionProp (t : CTy) : Bool :=
  match t with
  | CTy.union _ ms =>
      match (removeNullFromUnion ms true).1 with
      | JSVal.null => false
      | _ => true
  | _ => false

/-- The read strategy `emitClassFunctions` chooses for a property type
(source lines 929-1006): optional union first, then `any`/`null`, else
the strict keyed read. -/
def fromJsonReadMethod (t : CTy) : ReadMethod :=
  if isOptionalUnionProp t then ReadMethod.getOptional
  else if t.kind == "null" || t.kind == "any" then ReadMethod.getUntyped
  else ReadMethod.atStrict

/-- Claim C5: the decode read strategy is chosen by precedence —
union containing null uses the optional read whose missing key means
absent; `Any`/`Null` uses the untyped read whose missing key yields the
empty JSON value; everything else requires the key (missing key is an
error) and converts strictly. -/
theorem claim_C5 (α : Type) (t : CTy) (nm : String) (ms : List CTy) (j : JVal)
    (p : String) (dec : JVal → Option α) (decE : JVal → Except String α) :
    (t = CTy.union nm ms → (removeNullFromUnion ms true).1 ≠ JSVal.null →
      fromJsonReadMethod t = ReadMethod.getOptional)
    ∧ (t.kind = "null" ∨ t.kind = "any" → fromJsonReadMethod t = ReadMethod.getUntyped)
    ∧ (isOptionalUnionProp t = false → t.kind ≠ "null" → t.kind ≠ "any" →
      fromJsonReadMethod t = ReadMethod.atStrict)
    ∧ (jsonFind j p = none →
      getOptional dec j p = none ∧ getUntyped j p = JVal.null ∧
      jsonAtGet decE j p = Except.error "key not found") := by
  refine ⟨?_, ?_, ?_, ?_⟩
  · intro ht hnn
    subst ht
    unfold fromJsonReadMethod isOptionalUnionProp
    cases hrn : (removeNullFromUnion ms true).1 with
    | undef => simp
    | null => exact absurd hrn hnn
    | val a => simp
  · intro hk
    unfold fromJsonReadMethod
    have hop : isOptionalUnionProp t = false := by
      cases t <;> simp [CTy.kind] at hk ⊢ <;> rfl
    rcases hk with hk | hk <;> simp [hop, hk]
  · intro hop hn ha
    unfold fromJsonReadMethod
    have hn2 : ¬(t.kind == "null") = true := by simp [hn]
    have ha2 : ¬(t.kind == "any") = true := by simp [ha]
    simp [hop, hn2, ha2]
  · intro hf
    unfold getOptional getUntyped jsonAtGet
    rw [hf]
    exact ⟨rfl, rfl, rfl⟩

theorem claim_C5_witness :
    fromJsonReadMethod (CTy.union "U" [CTy.null, CTy.string]) = ReadMethod.getOptional
    ∧ fromJsonReadMethod CTy.any = ReadMethod.getUntyped
    ∧ fromJsonReadMethod CTy.integer = ReadMethod.atStrict
    ∧ (getOptional (fun _ => some ()) (JVal.obj [("a", JVal.null)]) "b" = none
       ∧ getUntyped (JVal.obj [("a", JVal.null)]) "b" = JVal.null
       ∧ jsonAtGet (fun _ => Except.ok ()) (JVal.obj [("a", JVal.null)]) "b" =
           Except.error "key not found") := by
  have h := claim_C5 Unit (CTy.union "U" [CTy.null, CTy.string]) "U"
    [CTy.null, CTy.string] (JVal.obj [("a", JVal.null)]) "b"
    (fun _ => some ()) (fun _ => Except.ok ())
  have h2 := claim_C5 Unit CTy.any "U" [] (JVal.obj [("a", JVal.null)]) "b"
    (fun _ => some ()) (fun _ => Except.ok ())
  have h3 := claim_C5 Unit CTy.integer "U" [] (JVal.obj [("a", JVal.null)]) "b"
    (fun _ => some ()) (fun _ => Except.ok ())
  refine ⟨h.1 rfl (by simp [removeNullFromUnion, CTy.kind]), ?_, ?_, ?_⟩
  · exact h2.2.1 (Or.inr rfl)
  · exact h3.2.2.1 rfl (by simp [CTy.kind]) (by simp [CTy.kind])
  · exact h.2.2.2 rfl

/-- `functionForKind`: the fixed, ordered list of (kind, runtime
probe) pairs of `emitUnionFunctions` (source lines 1046-1055). -/
def functionForKind : List (String × String) :=
  [("bool", "is_boolean"),
   ("integer", "is_number_integer"),
   ("double", "is_number"),
   ("string", "is_string"),
   ("class", "is_object"),
   ("map", "is_object"),
   ("array", "is_array"),
   ("enum", "is_string")]

/-- The branch list of the emitted union `from_json`: for each probe
pair in the fixed order, a branch exists exactly when the union has an
alternative of that kind (`iterableFind`), and it decodes into that
alternative (source lines 1063-1081). -/
def unionDecodeBranches (nonNulls : List CTy) : List (String × CTy) :=
  functionForKind.filterMap (fun kf =>
    match nonNulls.find? (fun t => t.kind == kf.1) with
    | some t => some (kf.2, t)
    | none => none)

/-- The error the emitted union `from_json` raises when no probe
matches (source line 1082). -/
def unionNoMatchMsg : String := "Could not deserialize"

/-- Run the emitted if/else-if chain: the first branch whose probe
holds decodes into its alternative; otherwise the no-match error. -/
def runBranchChain : List (String × CTy) → JVal → Except String CTy
  | [], _ => Except.error unionNoMatchMsg
  | (func, t) :: rest, j =>
      if jsonIs func j then Except.ok t else runBranchChain rest j

/-- The emitted union `from_json`, as a function from the incoming
value to the decoded alternative. -/
def runUnionFromJson (nonNulls : List CTy) (j : JVal) : Except String CTy :=
  runBranchChain (unionDecodeBranches nonNulls) j

/-- Declarative reading of the union decode: scan the fixed probe
order, skip kinds absent from the union, and pick the alternative of
the first probe that matches the runtime value. -/
def firstMatchingAlternative (nonNulls : List CTy) (j : JVal) : Option CTy :=
  functionForKind.findSome? (fun kf =>
    if jsonIs kf.2 j then nonNulls.find? (fun t => t.kind == kf.1) else none)

theorem runBranchChain_eq_findSome (kfs : List (String × String))
    (nonNulls : List CTy) (j : JVal) :
    runBranchChain
      (kfs.filterMap (fun kf =>
        match nonNulls.find? (fun t => t.kind == kf.1) with
        | some t => some (kf.2, t)
        | none => none)) j =
    match kfs.findSome? (fun kf =>
        if jsonIs kf.2 j then nonNulls.find? (fun t => t.kind == kf.1) else none) with
    | some t => Except.ok t
    | none => Except.error unionNoMatchMsg := by
  induction kfs with
  | nil => rfl
  | cons kf rest ih =>
    rw [List.filterMap_cons, List.findSome?_cons]
    cases hf : nonNulls.find? (fun t => t.kind == kf.1) with
    | some t =>
      by_cases hp : jsonIs kf.2 j
      · simp [runBranchChain, hp, hf]
      · simp [runBranchChain, hp, hf, ih]
    | none =>
      by_cases hp : jsonIs kf.2 j
      · simp [hp, hf, ih]
      · simp [hp, hf, ih]

/-- Claim C6: the emitted union decode tests the incoming value's
runtime kind in the fixed order bool, integer, double, string,
class, map, array, enum (skipping kinds absent from the union),
decodes into the first matching alternative, and raises the
schema-mismatch error when no probe matches; any decoded alternative
is a member of the union. -/
theorem claim_C6 (nonNulls : List CTy) (j : JVal) :
    (runUnionFromJson nonNulls j =
      match firstMatchingAlternative nonNulls j with
      | some t => Except.ok t
      | none => Except.error "Could not deserialize")
    ∧ (∀ t, firstMatchingAlternative nonNulls j = some t → t ∈ nonNulls) := by
  constructor
  · exact runBranchChain_eq_findSome functionForKind nonNulls j
  · intro t ht
    unfold firstMatchingAlternative at ht
    obtain ⟨kf, _, hkf⟩ := List.exists_of_findSome?_eq_some ht
    by_cases hp : jsonIs kf.2 j
    · rw [if_pos hp] at hkf
      exact List.mem_of_find?_eq_some hkf
    · rw [if_neg hp] at hkf
      cases hkf

theorem claim_C6_witness :
    (runUnionFromJson [CTy.integer, CTy.string] (JVal.numInteger 42) =
      match firstMatchingAlternative [CTy.integer, CTy.string] (JVal.numInteger 42) with
      | some t => Except.ok t
      | none => Except.error "Could not deserialize")
    ∧ CTy.integer ∈ [CTy.integer, CTy.string] :=
  ⟨(claim_C6 [CTy.integer, CTy.string] (JVal.numInteger 42)).1,
   (claim_C6 [CTy.integer, CTy.string] (JVal.numInteger 42)).2 CTy.integer rfl⟩

/-- The message of the `default` arm of the emitted union `to_json`
switch (source line 1108). -/
def unionEncodeDefaultMsg : String := "Input JSON does not conform to schema"

/-- The case list of the emitted union `to_json`: one case per
alternative, indexed in declared (variant) order (source lines
1086-1107). -/
def unionEncodeCases (nonNulls : List CTy) : List (Nat × CTy) :=
  nonNulls.enum

/-- Run the emitted `switch (_x.which())`: the case whose index equals
the active alternative's index serializes that alternative; the
default arm raises `unionEncodeDefaultMsg`. -/
def runUnionToJson (nonNulls : List CTy) (which : Nat) : Except String CTy :=
  match (unionEncodeCases nonNulls).find? (fun c => c.1 == which) with
  | some c => Except.ok c.2
  | none => Except.error unionEncodeDefaultMsg

/-- The no-match message of the emitted enum `from_json` — the
user-facing schema-mismatch error (source line 1133). -/
def enumNoMatchMsg : String := "Input JSON does not conform to schema"

/-- The `default` arm message of the emitted enum `to_json` — the
defensive internal error for an impossible case (source line 1150). -/
def enumEncodeDefaultMsg : String := "This should not happen"

theorem find_enumFrom (l : List CTy) : ∀ (n w : Nat),
    (l.enumFrom n).find? (fun c => c.1 == n + w) =
      (l.get? w).map (fun t => (n + w, t)) := by
  induction l with
  | nil => intro n w; rfl
  | cons x xs ih =>
    intro n w
    rw [List.enumFrom_cons]
    cases w with
    | zero =>
      rw [List.find?_cons_of_pos _ (by simp)]
      simp
    | succ w2 =>
      rw [List.find?_cons_of_neg _ (by simp <;> omega)]
      have harith : n + (w2 + 1) = (n + 1) + w2 := by omega
      rw [harith]
      exact ih (n + 1) w2

/-- Claim C9, counterexample to the claim as stated: in the union over
an array and a bool alternative, the decode branch order (probe order:
bool before array) differs from the encode case order (declared
variant order: array before bool), and the encode `default` arm raises
the string "Input JSON does not conform to schema" — the same message
the emitted enum decode uses for a user-facing schema mismatch — not
the distinct internal-error message "This should not happen" used by
the defensive enum encode default. -/
theorem claim_C9_counterexample :
    ((unionDecodeBranches [CTy.array CTy.integer, CTy.bool]).map Prod.snd =
      [CTy.bool, CTy.array CTy.integer])
    ∧ ((unionEncodeCases [CTy.array CTy.integer, CTy.bool]).map Prod.snd =
      [CTy.array CTy.integer, CTy.bool])
    ∧ runUnionToJson [CTy.array CTy.integer, CTy.bool] 2 =
        Except.error "Input JSON does not conform to schema"
    ∧ unionEncodeDefaultMsg = enumNoMatchMsg
    ∧ unionEncodeDefaultMsg ≠ enumEncodeDefaultMsg := by
  refine ⟨rfl, rfl, rfl, rfl, ?_⟩
  intro h
  exact absurd h (by decide)

/-- Claim C9, amended: the emitted union encode dispatches on the
active alternative's index in the declared (variant) order and
serializes that alternative; the `default` arm for an out-of-range
index raises the schema-mismatch message "Input JSON does not conform
to schema" (the same message the enum decode uses for a user-facing
schema mismatch), not a distinct internal error. -/
theorem claim_C9 (nonNulls : List CTy) (which : Nat) :
    (∀ h : which < nonNulls.length,
      runUnionToJson nonNulls which = Except.ok (nonNulls.get ⟨which, h⟩))
    ∧ (nonNulls.length ≤ which →
      runUnionToJson nonNulls which = Except.error "Input JSON does not conform to schema")
    ∧ unionEncodeDefaultMsg = enumNoMatchMsg := by
  have hfind : (nonNulls.enum).find? (fun c => c.1 == which) =
      (nonNulls.get? which).map (fun t => (which, t)) := by
    have := find_enumFrom nonNulls 0 which
    simpa [List.enum] using this
  refine ⟨?_, ?_, rfl⟩
  · intro h
    unfold runUnionToJson unionEncodeCases
    rw [hfind, List.get?_eq_get h]
    rfl
  · intro h
    unfold runUnionToJson unionEncodeCases
    rw [hfind, List.get?_eq_none.mpr h]
    rfl

theorem claim_C9_witness :
    runUnionToJson [CTy.integer, CTy.string] 1 = Except.ok CTy.string
    ∧ runUnionToJson [CTy.integer, CTy.string] 5 =
        Except.error "Input JSON does not conform to schema" :=
  ⟨(claim_C9 [CTy.integer, CTy.string] 1).1 (by decide),
   (claim_C9 [CTy.integer, CTy.string] 5).2.1 (by decide)⟩

/-! ## Constraint synthesizer: the emitted `ClassMemberConstraints`
runtime and `CheckConstraint` overloads -/

/-- The constraint bundle the emitted `ClassMemberConstraints` class
holds: optional numeric bounds, optional length bounds, optional
pattern (source lines 299-311 and 1238-1270). -/
structure ClassMemberConstraints where
  minValue : Option Int
  maxValue : Option Int
  minLength : Option Int
  maxLength : Option Int
  pattern : Option String

/-- The typed exception classes of the emitted validation runtime
(source lines 1280-1286). -/
inductive ConstraintViolation where
  | valueTooLow : ConstraintViolation
  | valueTooHigh : ConstraintViolation
  | valueTooShort : ConstraintViolation
  | valueTooLong : ConstraintViolation
  | invalidPattern : ConstraintViolation
deriving DecidableEq

/-- A raised constraint exception: its class and its message. -/
structure ConstraintError where
  kind : ConstraintViolation
  msg : String
deriving DecidableEq

/-- `if (c.getMinValue() != boost::none && value < *c.getMinValue())
throw ValueTooLowException(...)` (source lines 1302-1314). -/
def checkMinValue (name : String) (c : ClassMemberConstraints) (value : Int) :
    Except ConstraintError Unit :=
  match c.minValue with
  | some m =>
      if value < m then
        Except.error
          { kind := ConstraintViolation.valueTooLow,
            msg := "Value too low for " ++ name ++ " (" ++ toString value ++ "<" ++
              toString m ++ ")" }
      else Except.ok ()
  | none => Except.ok ()

/-- The maximum check of the numeric `CheckConstraint` (source lines
1317-1329). -/
def checkMaxValue (name : String) (c : ClassMemberConstraints) (value : Int) :
    Except ConstraintError Unit :=
  match c.maxValue with
  | some m =>
      if m < value then
        Except.error
          { kind := ConstraintViolation.valueTooHigh,
            msg := "Value too high for " ++ name ++ " (" ++ toString value ++ ">" ++
              toString m ++ ")" }
      else Except.ok ()
  | none => Except.ok ()

/-- The numeric `CheckConstraint(name, c, value)` overload (source
lines 1298-1332): minimum, then maximum, fail-fast. -/
def checkConstraintInt (name : String) (c : ClassMemberConstraints) (value : Int) :
    Except ConstraintError Unit := do
  checkMinValue name c value
  checkMaxValue name c value

/-- The minimum-length check of the string `CheckConstraint` (source
lines 1345-1357). -/
def checkMinLength (name : String) (c : ClassMemberConstraints) (value : String) :
    Except ConstraintError Unit :=
  match c.minLength with
  | some m =>
      if (value.length : Int) < m then
        Except.error
          { kind := ConstraintViolation.valueTooShort,
            msg := "Value too short for " ++ name ++ " (" ++ toString value.length ++
              "<" ++ toString m ++ ")" }
      else Except.ok ()
  | none => Except.ok ()

/-- The maximum-length check of the string `CheckConstraint` (source
lines 1360-1372). -/
def checkMaxLength (name : String) (c : ClassMemberConstraints) (value : String) :
    Except ConstraintError Unit :=
  match c.maxLength with
  | some m =>
      if m < (value.length : Int) then
        Except.error
          { kind := ConstraintViolation.valueTooLong,
            msg := "Value too long for " ++ name ++ " (" ++ toString value.length ++
              ">" ++ toString m ++ ")" }
      else Except.ok ()
  | none => Except.ok ()

/-- The pattern check of the string `CheckConstraint` (source lines
1375-1387); `regexSearch pat value` models `std::regex_search` finding
a match of `pat` in `value`. -/
def checkPattern (regexSearch : String → String → Bool) (name : String)
    (c : ClassMemberConstraints) (value : String) : Except ConstraintError Unit :=
  match c.pattern with
  | some p =>
      if regexSearch p value then Except.ok ()
      else
        Except.error
          { kind := ConstraintViolation.invalidPattern,
            msg := "Value doesn\x27t match pattern for " ++ name ++ " (" ++ value ++
              "!=" ++ p ++ ")" }
  | none => Except.ok ()

/-- The string `CheckConstraint(name, c, value)` overload (source
lines 1335-1390): minimum length, then maximum length, then pattern,
fail-fast. -/
def checkConstraintString (regexSearch : String → String → Bool) (name : String)
    (c : ClassMemberConstraints) (value : String) : Except ConstraintError Unit := do
  checkMinLength name c value
  checkMaxLength name c value
  checkPattern regexSearch name c value

/-- The exception class of a check outcome, if it raised. -/
def raisedKind (e : Except ConstraintError Unit) : Option ConstraintViolation :=
  match e with
  | Except.error er => some er.kind
  | Except.ok _ => none

/-- Claim C7: the synthesized checker validates in fixed fail-fast
order — numeric: minimum then maximum; string: minimum length, maximum
length, pattern — and the first failing check raises its typed
exception, so no later check runs. -/
theorem claim_C7 (regexSearch : String → String → Bool) (name : String)
    (c : ClassMemberConstraints) (v : Int) (s : String) :
    ((∃ m, c.minValue = some m ∧ v < m) →
      raisedKind (checkConstraintInt name c v) = some ConstraintViolation.valueTooLow)
    ∧ ((∀ m, c.minValue = some m → ¬ v < m) → (∃ m, c.maxValue = some m ∧ m < v) →
      raisedKind (checkConstraintInt name c v) = some ConstraintViolation.valueTooHigh)
    ∧ ((∀ m, c.minValue = some m → ¬ v < m) → (∀ m, c.maxValue = some m → ¬ m < v) →
      checkConstraintInt name c v = Except.ok ())
    ∧ ((∃ m, c.minLength = some m ∧ (s.length : Int) < m) →
      raisedKind (checkConstraintString regexSearch name c s) =
        some ConstraintViolation.valueTooShort)
    ∧ ((∀ m, c.minLength = some m → ¬ (s.length : Int) < m) →
       (∃ m, c.maxLength = some m ∧ m < (s.length : Int)) →
      raisedKind (checkConstraintString regexSearch name c s) =
        some ConstraintViolation.valueTooLong)
    ∧ ((∀ m, c.minLength = some m → ¬ (s.length : Int) < m) →
       (∀ m, c.maxLength = some m → ¬ m < (s.length : Int)) →
       (∃ p, c.pattern = some p ∧ regexSearch p s = false) →
      raisedKind (checkConstraintString regexSearch name c s) =
        some ConstraintViolation.invalidPattern)
    ∧ ((∀ m, c.minLength = some m → ¬ (s.length : Int) < m) →
       (∀ m, c.maxLength = some m → ¬ m < (s.length : Int)) →
       (∀ p, c.pattern = some p → regexSearch p s = true) →
      checkConstraintString regexSearch name c s = Except.ok ()) := by
  have hminOk : (∀ m, c.minValue = some m → ¬ v < m) →
      checkMinValue name c v = Except.ok () := by
    intro hmn
    unfold checkMinValue
    cases hm : c.minValue with
    | some m => simp [hmn m hm]
    | none => rfl
  have hmaxOk : (∀ m, c.maxValue = some m → ¬ m < v) →
      checkMaxValue name c v = Except.ok () := by
    intro hmx
    unfold checkMaxValue
    cases hm : c.maxValue with
    | some m => simp [hmx m hm]
    | none => rfl
  have hminLOk : (∀ m, c.minLength = some m → ¬ (s.length : Int) < m) →
      checkMinLength name c s = Except.ok () := by
    intro hmn
    unfold checkMinLength
    cases hm : c.minLength with
    | some m => simp [hmn m hm]
    | none => rfl
  have hmaxLOk : (∀ m, c.maxLength = some m → ¬ m < (s.length : Int)) →
      checkMaxLength name c s = Except.ok () := by
    intro hmx
    unfold checkMaxLength
    cases hm : c.maxLength with
    | some m => simp [hmx m hm]
    | none => rfl
  refine ⟨?_, ?_, ?_, ?_, ?_, ?_, ?_⟩
  · rintro ⟨m, hm, hv⟩
    unfold checkConstraintInt checkMinValue
    rw [hm]
    simp [hv, raisedKind, Bind.bind, Except.bind]
  · intro hmn ⟨m, hm, hv⟩
    unfold checkConstraintInt
    rw [hminOk hmn]
    unfold checkMaxValue
    rw [hm]
    simp [hv, raisedKind, Bind.bind, Except.bind]
  · intro hmn hmx
    unfold checkConstraintInt
    rw [hminOk hmn, hmaxOk hmx]
    rfl
  · rintro ⟨m, hm, hv⟩
    unfold checkConstraintString checkMinLength
    rw [hm]
    simp [hv, raisedKind, Bind.bind, Except.bind]
  · intro hmn ⟨m, hm, hv⟩
    unfold checkConstraintString
    rw [hminLOk hmn]
    unfold checkMaxLength
    rw [hm]
    simp [hv, raisedKind, Bind.bind, Except.bind]
  · intro hmn hmx ⟨p, hp, hr⟩
    unfold checkConstraintString
    rw [hminLOk hmn, hmaxLOk hmx]
    unfold checkPattern
    rw [hp]
    simp [hr, raisedKind, Bind.bind, Except.bind]
  · intro hmn hmx hpat
    unfold checkConstraintString
    rw [hminLOk hmn, hmaxLOk hmx]
    unfold checkPattern
    cases hp : c.pattern with
    | some p =>
        simp only [hpat p hp, if_pos]
        rfl
    | none => rfl

theorem claim_C7_witness :
    raisedKind (checkConstraintInt "x"
      { minValue := some 1, maxValue := some 10, minLength := none,
        maxLength := none, pattern := none } 0) = some ConstraintViolation.valueTooLow
    ∧ raisedKind (checkConstraintInt "x"
      { minValue := some 1, maxValue := some 10, minLength := none,
        maxLength := none, pattern := none } 11) = some ConstraintViolation.valueTooHigh
    ∧ checkConstraintInt "x"
      { minValue := some 1, maxValue := some 10, minLength := none,
        maxLength := none, pattern := none } 5 = Except.ok ()
    ∧ raisedKind (checkConstraintString (fun _ _ => false) "x"
      { minValue := none, maxValue := none, minLength := some 2,
        maxLength := some 4, pattern := some "ab" } "z") =
        some ConstraintViolation.valueTooShort
    ∧ raisedKind (checkConstraintString (fun _ _ => false) "x"
      { minValue := none, maxValue := none, minLength := some 2,
        maxLength := some 4, pattern := some "ab" } "zzzzz") =
        some ConstraintViolation.valueTooLong
    ∧ raisedKind (checkConstraintString (fun _ _ => false) "x"
      { minValue := none, maxValue := none, minLength := some 2,
        maxLength := some 4, pattern := some "ab" } "zzz") =
        some ConstraintViolation.invalidPattern
    ∧ checkConstraintString (fun _ _ => true) "x"
      { minValue := none, maxValue := none, minLength := some 2,
        maxLength := some 4, pattern := some "ab" } "zzz" = Except.ok () := by
  have c0 : ClassMemberConstraints :=
    { minValue := some 1, maxValue := some 10, minLength := none,
      maxLength := none, pattern := none }
  refine ⟨?_, ?_, ?_, ?_, ?_, ?_, ?_⟩
  · exact (claim_C7 (fun _ _ => false) "x" _ 0 "").1 ⟨1, rfl, by decide⟩
  · exact (claim_C7 (fun _ _ => false) "x" _ 11 "").2.1
      (by rintro m hm; cases hm; decide) ⟨10, rfl, by decide⟩
  · exact (claim_C7 (fun _ _ => false) "x" _ 5 "").2.2.1
      (by rintro m hm; cases hm; decide) (by rintro m hm; cases hm; decide)
  · exact (claim_C7 (fun _ _ => false) "x" _ 0 "z").2.2.2.1 ⟨2, rfl, by decide⟩
  · exact (claim_C7 (fun _ _ => false) "x" _ 0 "zzzzz").2.2.2.2.1
      (by rintro m hm; cases hm; decide) ⟨4, rfl, by decide⟩
  · exact (claim_C7 (fun _ _ => false) "x" _ 0 "zzz").2.2.2.2.2.1
      (by rintro m hm; cases hm; decide) (by rintro m hm; cases hm; decide)
      ⟨"ab", rfl, rfl⟩
  · exact (claim_C7 (fun _ _ => true) "x" _ 0 "zzz").2.2.2.2.2.2
      (by rintro m hm; cases hm; decide) (by rintro m hm; cases hm; decide)
      (by rintro p hp; rfl)

/-! ## The checked setter emitted by `emitClassMembers` -/

/-- A class property as the emitter sees it: its resolved member
identifier (`name`) and its wire name (`jsonName`, the external payload
key the member identifier was styled from). -/
structure Property where
  name : String
  jsonName : String

/-- `constraintMember(jsonName)` (source lines 753-755): the constraint
bundle member, the member naming style applied to the wire name plus
"Constraint". -/
def constraintMember (memberNameStyle : String → String) (jsonName : String) : String :=
  memberNameStyle (jsonName ++ "Constraint")

/-- The arguments of the `CheckConstraint` call the checked setter
emits. -/
structure CheckConstraintCall where
  nameArg : String
  constraintArg : String

/-- The `CheckConstraint` call emitted inside a constrained property's
setter (source lines 836-851, and 811-829 for the optional-union
branch): the first argument is the quoted property member `name`, the
second the constraint bundle member derived from `jsonName`. -/
def setterCheckCall (memberNameStyle : String → String) (p : Property) :
    CheckConstraintCall :=
  { nameArg := p.name,
    constraintArg := constraintMember memberNameStyle p.jsonName }

/-- Running the emitted checked setter's validation for an integer
property: `CheckConstraint("<name>", <jsonName>Constraint, value)`. -/
def runCheckedSetterInt (p : Property) (c : ClassMemberConstraints) (value : Int) :
    Except ConstraintError Unit :=
  checkConstraintInt p.name c value

/-- Claim C8, counterexample to the claim as stated: for a property
whose styled member identifier differs from its wire name, the name
passed to the emitted `CheckConstraint` call is the member identifier,
not the wire name. -/
theorem claim_C8_counterexample :
    (setterCheckCall id { name := "fooBar", jsonName := "foo_bar" }).nameArg = "fooBar"
    ∧ ({ name := "fooBar", jsonName := "foo_bar" } : Property).jsonName = "foo_bar"
    ∧ (setterCheckCall id { name := "fooBar", jsonName := "foo_bar" }).nameArg ≠
        ({ name := "fooBar", jsonName := "foo_bar" } : Property).jsonName :=
  ⟨rfl, rfl, by decide⟩

/-- Claim C8, amended: the typed validation error raised by the checked
setter carries the property's resolved member identifier (not its wire
name) along with the offending value; the wire name only selects the
constraint bundle member, through the member naming style. -/
theorem claim_C8 (memberNameStyle : String → String) (p : Property)
    (c : ClassMemberConstraints) (v : Int) (m : Int) :
    (setterCheckCall memberNameStyle p).nameArg = p.name
    ∧ (setterCheckCall memberNameStyle p).constraintArg =
        memberNameStyle (p.jsonName ++ "Constraint")
    ∧ (c.minValue = some m → v < m →
        runCheckedSetterInt p c v = Except.error
          { kind := ConstraintViolation.valueTooLow,
            msg := "Value too low for " ++ p.name ++ " (" ++ toString v ++ "<" ++
              toString m ++ ")" }) := by
  refine ⟨rfl, rfl, ?_⟩
  intro hm hv
  unfold runCheckedSetterInt checkConstraintInt checkMinValue
  rw [hm]
  simp [hv, Bind.bind, Except.bind]

theorem claim_C8_witness :
    (setterCheckCall id { name := "fooBar", jsonName := "foo_bar" }).nameArg = "fooBar"
    ∧ (setterCheckCall id { name := "fooBar", jsonName := "foo_bar" }).constraintArg =
        id ("foo_bar" ++ "Constraint")
    ∧ runCheckedSetterInt { name := "fooBar", jsonName := "foo_bar" }
        { minValue := some 1, maxValue := none, minLength := none,
          maxLength := none, pattern := none } 0 =
        Except.error
          { kind := ConstraintViolation.valueTooLow,
            msg := "Value too low for " ++ "fooBar" ++ " (" ++ toString (0 : Int) ++
              "<" ++ toString (1 : Int) ++ ")" } := by
  have h := claim_C8 id { name := "fooBar", jsonName := "foo_bar" }
    { minValue := some 1, maxValue := none, minLength := none,
      maxLength := none, pattern := none } 0 1
  exact ⟨h.1, h.2.1, h.2.2 rfl (by decide)⟩

end CPlusPlus
